import Mathlib

/-!
Verification of the edgeIq-trade trade-settlement and leaderboard core.

The definitions below are a shallow embedding of the repository's route
handlers, translated from the TypeScript source:

* `settleTrade`  — POST /api/trades/settle (src/src/app/api/trades/settle/route.ts)
* `createTrade`  — POST /api/trades               (src/unnamed/part_005)
* `deleteTrade`  — DELETE /api/trades             (src/unnamed/part_005, part_004)
* the leaderboard aggregation tail, sort spec, rank, search splice and
  pagination — GET /api/leaderboard (src/src/app/api/leaderboard/route.ts)

JavaScript numbers are modelled as `ℚ` (all the arithmetic the claims are
about is exact over the rationals); contract counts are `ℤ` (validated
positive integers upstream); Mongo ObjectIds are `ℕ` with their total
order.  Authentication, market hours, the market-data collaborator and the
notification dispatcher are external collaborators (spec sections 1 and 6)
and are abstracted as parameters: a settlement's verified final price is
passed in, and the outcome of `validateOptionPrice` is a record.
-/

namespace EdgeIQ

/-- Trade lifecycle status (the `status` field of the Trade model). -/
inductive TradeStatus
  | OPEN
  | CLOSED
  | REJECTED
deriving DecidableEq

/-- Outcome of a fully settled trade. -/
inductive Outcome
  | WIN
  | LOSS
  | BREAKEVEN
deriving DecidableEq

/-- Order side. -/
inductive Side
  | BUY
  | SELL
deriving DecidableEq

/-- A Trade document: the fields the verified route handlers read or write.
`netPnl` and `outcome` are unset (`none`) until the trade closes;
`totalBuyNotional` is read through `|| 0` in the settle route, so the
model stores the already-defaulted value (REJECTED trades carry 0). -/
structure Trade where
  id : ℕ
  side : Side
  contracts : ℤ
  fillPrice : ℚ
  status : TradeStatus
  priceVerified : Bool
  remainingOpenContracts : ℤ
  totalBuyNotional : ℚ
  totalSellNotional : ℚ
  netPnl : Option ℚ
  outcome : Option Outcome
deriving DecidableEq

/-- A TradeFill document (`f.notional` is read through `|| 0` when summed;
every fill creation site sets it, so the model stores it directly). -/
structure TradeFill where
  tradeId : ℕ
  side : Side
  contracts : ℤ
  fillPrice : ℚ
  notional : ℚ
deriving DecidableEq

/-- The persistent state the routes touch: the Trade and TradeFill
collections, plus the id generator (Mongo assigns fresh `_id`s). -/
structure Store where
  nextId : ℕ
  trades : List Trade
  fills : List TradeFill
deriving DecidableEq

def Store.empty : Store := ⟨0, [], []⟩

/-- `Trade.findOne({_id: tradeId, userId, companyId, side: 'BUY'})` in the
settle route (the user/company scoping is the authorization collaborator). -/
def findBuyTrade (s : Store) (tradeId : ℕ) : Option Trade :=
  s.trades.find? (fun t => t.id == tradeId && t.side == Side.BUY)

/-- `Trade.findOne({_id: tradeId, userId, companyId})` in the delete route. -/
def findTrade (s : Store) (tradeId : ℕ) : Option Trade :=
  s.trades.find? (fun t => t.id == tradeId)

/-- Error taxonomy of spec section 7, as surfaced by the handlers:
404 "Trade not found" is NotFoundError, 400/403 "Cannot … trade that is
not OPEN" is StateError, 400 "Cannot sell … contracts" is ValidationError. -/
inductive TradeError
  | NotFoundError
  | StateError
  | ValidationError
deriving DecidableEq

/-- POST /api/trades/settle, lines 70-259 of the settle route.  The market
data and price-verification collaborators are abstracted: a run that
reaches the mutation has determined `finalFillPrice`.  On success the
route creates the SELL fill, decrements `remainingOpenContracts`,
recomputes `totalSellNotional` from all fills of the trade, and closes
the trade with `netPnl`/`outcome` when no contracts remain. -/
def settleTrade (s : Store) (tradeId : ℕ) (contracts : ℤ) (finalFillPrice : ℚ) :
    Except TradeError (Store × TradeFill) :=
  match findBuyTrade s tradeId with
  | none => .error .NotFoundError
  | some trade =>
    if trade.status ≠ TradeStatus.OPEN then .error .StateError
    else if trade.remainingOpenContracts < contracts then .error .ValidationError
    else
      let sellNotional : ℚ := contracts * finalFillPrice * 100
      let fill : TradeFill :=
        { tradeId := trade.id, side := Side.SELL, contracts := contracts,
          fillPrice := finalFillPrice, notional := sellNotional }
      let fills' := s.fills ++ [fill]
      let newRemainingContracts := trade.remainingOpenContracts - contracts
      let allFills := fills'.filter (fun f => f.tradeId == trade.id)
      let totalSellNotional := (allFills.map TradeFill.notional).sum
      let netPnl := totalSellNotional - trade.totalBuyNotional
      let trade' : Trade :=
        if newRemainingContracts = 0 then
          { trade with
            remainingOpenContracts := newRemainingContracts,
            totalSellNotional := totalSellNotional,
            status := TradeStatus.CLOSED,
            netPnl := some netPnl,
            outcome := some (if 0 < netPnl then Outcome.WIN
              else if netPnl < 0 then Outcome.LOSS else Outcome.BREAKEVEN) }
        else
          { trade with
            remainingOpenContracts := newRemainingContracts,
            totalSellNotional := totalSellNotional }
      let trades' := s.trades.map (fun t => if t.id = trade.id then trade' else t)
      .ok ({ s with trades := trades', fills := fills' }, fill)

/-- Response of the `validateOptionPrice` collaborator (spec section 6). -/
structure PriceValidation where
  isValid : Bool
  refPrice : Option ℚ
  optionContract : Option String
deriving DecidableEq

/-- JavaScript falsiness of an optional number (`!x`): absent or zero. -/
def falsyNum : Option ℚ → Bool
  | none => true
  | some q => decide (q = 0)

/-- JavaScript falsiness of an optional string (`!x`): absent or empty. -/
def falsyStr : Option String → Bool
  | none => true
  | some v => decide (v = "")

/-- POST /api/trades (part_005, lines 107-284): create a BUY trade after
field validation.  When `!priceValidation.isValid || !priceValidation.refPrice
|| !priceValidation.optionContract` the trade is still persisted, as
REJECTED with `priceVerified: false`; otherwise it is persisted OPEN with
`totalBuyNotional = contracts * fillPrice * 100`. -/
def createTrade (s : Store) (contracts : ℤ) (fillPrice : ℚ) (pv : PriceValidation) :
    Store × Trade :=
  if !pv.isValid || falsyNum pv.refPrice || falsyStr pv.optionContract then
    let trade : Trade :=
      { id := s.nextId, side := Side.BUY, contracts := contracts, fillPrice := fillPrice,
        status := TradeStatus.REJECTED, priceVerified := false,
        remainingOpenContracts := contracts,
        totalBuyNotional := 0, totalSellNotional := 0,
        netPnl := none, outcome := none }
    ({ s with nextId := s.nextId + 1, trades := s.trades ++ [trade] }, trade)
  else
    let notional : ℚ := contracts * fillPrice * 100
    let trade : Trade :=
      { id := s.nextId, side := Side.BUY, contracts := contracts, fillPrice := fillPrice,
        status := TradeStatus.OPEN, priceVerified := true,
        remainingOpenContracts := contracts,
        totalBuyNotional := notional, totalSellNotional := 0,
        netPnl := none, outcome := none }
    ({ s with nextId := s.nextId + 1, trades := s.trades ++ [trade] }, trade)

/-- DELETE /api/trades (part_005 lines 290-363, identically part_004):
deletion requires status OPEN; on success the associated fills are
removed (`TradeFill.deleteMany({tradeId})`) and then the trade itself. -/
def deleteTrade (s : Store) (tradeId : ℕ) : Except TradeError Store :=
  match findTrade s tradeId with
  | none => .error .NotFoundError
  | some trade =>
    if trade.status ≠ TradeStatus.OPEN then .error .StateError
    else .ok { s with
      fills := s.fills.filter (fun f => !(f.tradeId == trade.id)),
      trades := s.trades.filter (fun t => !(t.id == trade.id)) }

/-- A request against the trade collections. -/
inductive Op
  | create (contracts : ℤ) (fillPrice : ℚ) (pv : PriceValidation)
  | settle (tradeId : ℕ) (contracts : ℤ) (finalFillPrice : ℚ)
  | delete (tradeId : ℕ)

/-- Effect of one request on the store; a failed request leaves it as is
(each error path returns before any write). -/
def applyOp (s : Store) : Op → Store
  | .create c p pv => (createTrade s c p pv).1
  | .settle tid c p =>
    match settleTrade s tid c p with
    | .ok r => r.1
    | .error _ => s
  | .delete tid =>
    match deleteTrade s tid with
    | .ok s' => s'
    | .error _ => s

/-- The store after a sequence of requests against empty collections. -/
def runOps (ops : List Op) : Store := ops.foldl applyOp Store.empty

/-- The SELL fills recorded against trade `tid`. -/
def sellFillsOf (s : Store) (tid : ℕ) : List TradeFill :=
  s.fills.filter (fun f => f.tradeId == tid && f.side == Side.SELL)

/-- Fixture: an OPEN trade (3 contracts bought at 2.00, notional 600). -/
def wTradeOpen : Trade :=
  ⟨0, Side.BUY, 3, 2, TradeStatus.OPEN, true, 3, 600, 0, none, none⟩

/-- Fixture: an already CLOSED trade. -/
def wTradeClosed : Trade :=
  ⟨1, Side.BUY, 2, 1, TradeStatus.CLOSED, true, 0, 200, 250, some 50, some Outcome.WIN⟩

/-- Fixture: a REJECTED trade. -/
def wTradeRejected : Trade :=
  ⟨2, Side.BUY, 1, 4, TradeStatus.REJECTED, false, 1, 0, 0, none, none⟩

/-- Fixture store holding the three trades and one settled fill. -/
def wStore : Store :=
  ⟨3, [wTradeOpen, wTradeClosed, wTradeRejected], [⟨1, Side.SELL, 2, 125/100, 250⟩]⟩

/-- The SELL fill `settleTrade` creates on its success path. -/
def settleFill (t : Trade) (c : ℤ) (p : ℚ) : TradeFill :=
  ⟨t.id, Side.SELL, c, p, (c : ℚ) * p * 100⟩

/-- The updated trade document `settleTrade` writes on its success path. -/
def settledTrade (s : Store) (t : Trade) (c : ℤ) (p : ℚ) : Trade :=
  let tsn := (((s.fills ++ [settleFill t c p]).filter
    (fun f => f.tradeId == t.id)).map TradeFill.notional).sum
  let npl := tsn - t.totalBuyNotional
  if t.remainingOpenContracts - c = 0 then
    { t with
      remainingOpenContracts := t.remainingOpenContracts - c,
      totalSellNotional := tsn,
      status := TradeStatus.CLOSED,
      netPnl := some npl,
      outcome := some (if 0 < npl then Outcome.WIN
        else if npl < 0 then Outcome.LOSS else Outcome.BREAKEVEN) }
  else
    { t with
      remainingOpenContracts := t.remainingOpenContracts - c,
      totalSellNotional := tsn }

/-- The store `settleTrade` leaves behind on its success path. -/
def settledStore (s : Store) (t : Trade) (c : ℤ) (p : ℚ) : Store :=
  { s with
    trades := s.trades.map (fun u => if u.id = t.id then settledTrade s t c p else u),
    fills := s.fills ++ [settleFill t c p] }

theorem settledTrade_id (s : Store) (t : Trade) (c : ℤ) (p : ℚ) :
    (settledTrade s t c p).id = t.id := by
  unfold settledTrade
  split <;> rfl

theorem settledTrade_side (s : Store) (t : Trade) (c : ℤ) (p : ℚ) :
    (settledTrade s t c p).side = t.side := by
  unfold settledTrade
  split <;> rfl

theorem settleTrade_ok_eq (s : Store) (tid : ℕ) (c : ℤ) (p : ℚ) (t : Trade)
    (ht : findBuyTrade s tid = some t)
    (hopen : t.status = TradeStatus.OPEN)
    (hc : ¬ t.remainingOpenContracts < c) :
    settleTrade s tid c p = .ok (settledStore s t c p, settleFill t c p) := by
  simp only [settleTrade, ht]
  rw [if_neg (by simp [hopen]), if_neg hc]
  rfl

/-- If the first trade satisfying `q` is `tr`, ids are unique, and `tr'`
also satisfies `q` and carries `tr`'s id, then after replacing the trades
with id `tr.id` by `tr'` the first trade satisfying `q` is `tr'`. -/
theorem find?_map_replace (l : List Trade) (q : Trade → Bool) (tr tr' : Trade)
    (h : l.find? q = some tr) (hnd : (l.map Trade.id).Nodup)
    (hq : q tr' = true) (hid : tr'.id = tr.id) :
    (l.map (fun u => if u.id = tr.id then tr' else u)).find? q = some tr' := by
  induction l with
  | nil => simp at h
  | cons x xs ih =>
    have hnd0 := hnd
    simp only [List.map_cons, List.nodup_cons, List.mem_map] at hnd0
    obtain ⟨hx_notin, hnd'⟩ := hnd0
    have hnd'' : (xs.map Trade.id).Nodup := hnd'
    by_cases hqx : q x = true
    · have hxtr : x = tr := by
        rw [List.find?_cons_of_pos _ hqx] at h
        exact Option.some.inj h
      subst hxtr
      simp only [List.map_cons, if_pos rfl]
      exact List.find?_cons_of_pos _ hq
    · have hqx' : ¬ q x := by simpa using hqx
      rw [List.find?_cons_of_neg _ hqx'] at h
      have htr_mem : tr ∈ xs := List.mem_of_find?_eq_some h
      have hxid : x.id ≠ tr.id := fun hcontra => hx_notin ⟨tr, htr_mem, hcontra.symm⟩
      simp only [List.map_cons, if_neg hxid]
      rw [List.find?_cons_of_neg _ hqx']
      exact ih h hnd''

/-- C1: on a successful settlement of an OPEN BUY trade, the stored trade's
totalSellNotional is recomputed as the sum of the notionals of all fills of
the trade (the new SELL fill included); when no contracts remain the trade
closes with netPnl = totalSellNotional - totalBuyNotional and the outcome
determined by the sign of netPnl; otherwise it stays OPEN with no outcome. -/
theorem settleTrade_settlement_math (s : Store) (tid : ℕ) (c : ℤ) (p : ℚ) (t : Trade)
    (hids : (s.trades.map Trade.id).Nodup)
    (ht : findBuyTrade s tid = some t)
    (houtcome : t.outcome = none)
    (hopen : t.status = TradeStatus.OPEN)
    (hc : c ≤ t.remainingOpenContracts) :
    ∃ s' fill t', settleTrade s tid c p = .ok (s', fill) ∧
      findBuyTrade s' tid = some t' ∧
      t'.totalSellNotional =
        ((s'.fills.filter (fun f => f.tradeId == t.id)).map TradeFill.notional).sum ∧
      s'.fills = s.fills ++ [fill] ∧
      t'.remainingOpenContracts = t.remainingOpenContracts - c ∧
      (t'.remainingOpenContracts = 0 →
        t'.status = TradeStatus.CLOSED ∧
        t'.netPnl = some (t'.totalSellNotional - t.totalBuyNotional) ∧
        t'.outcome = some (if 0 < t'.totalSellNotional - t.totalBuyNotional then Outcome.WIN
          else if t'.totalSellNotional - t.totalBuyNotional < 0 then Outcome.LOSS
          else Outcome.BREAKEVEN)) ∧
      (0 < t'.remainingOpenContracts →
        t'.status = TradeStatus.OPEN ∧ t'.outcome = none) := by
  have hclt : ¬ t.remainingOpenContracts < c := not_lt.mpr hc
  have hqt := List.find?_some ht
  have hqt' : (t.id == tid && t.side == Side.BUY) = true := hqt
  simp only [Bool.and_eq_true, beq_iff_eq] at hqt'
  obtain ⟨hidt, hside⟩ := hqt'
  refine ⟨settledStore s t c p, settleFill t c p, settledTrade s t c p,
    settleTrade_ok_eq s tid c p t ht hopen hclt, ?_, ?_, rfl, ?_, ?_, ?_⟩
  · have hq' : ((settledTrade s t c p).id == tid && (settledTrade s t c p).side == Side.BUY)
        = true := by
      simp [settledTrade_id, settledTrade_side, hidt, hside]
    exact find?_map_replace s.trades _ t (settledTrade s t c p) ht hids hq'
      (settledTrade_id s t c p)
  · unfold settledStore settledTrade
    split <;> rfl
  · unfold settledTrade
    split <;> rfl
  · intro h0
    have hrem : (settledTrade s t c p).remainingOpenContracts =
        t.remainingOpenContracts - c := by
      unfold settledTrade
      split <;> rfl
    rw [hrem] at h0
    unfold settledTrade
    rw [if_pos h0]
    exact ⟨rfl, rfl, rfl⟩
  · intro hpos
    have hrem : (settledTrade s t c p).remainingOpenContracts =
        t.remainingOpenContracts - c := by
      unfold settledTrade
      split <;> rfl
    rw [hrem] at hpos
    have h0 : ¬ (t.remainingOpenContracts - c = 0) := by
      intro hz
      rw [hz] at hpos
      exact lt_irrefl 0 hpos
    unfold settledTrade
    rw [if_neg h0]
    exact ⟨hopen, houtcome⟩

/-- Witness for C1: settle 2 of the 3 open contracts at price 3. -/
theorem settleTrade_settlement_math_witness :
    ∃ s' fill t', settleTrade wStore 0 2 3 = .ok (s', fill) ∧
      findBuyTrade s' 0 = some t' ∧
      t'.totalSellNotional =
        ((s'.fills.filter (fun f => f.tradeId == wTradeOpen.id)).map TradeFill.notional).sum ∧
      s'.fills = wStore.fills ++ [fill] ∧
      t'.remainingOpenContracts = wTradeOpen.remainingOpenContracts - 2 ∧
      (t'.remainingOpenContracts = 0 →
        t'.status = TradeStatus.CLOSED ∧
        t'.netPnl = some (t'.totalSellNotional - wTradeOpen.totalBuyNotional) ∧
        t'.outcome = some (if 0 < t'.totalSellNotional - wTradeOpen.totalBuyNotional
          then Outcome.WIN
          else if t'.totalSellNotional - wTradeOpen.totalBuyNotional < 0 then Outcome.LOSS
          else Outcome.BREAKEVEN)) ∧
      (0 < t'.remainingOpenContracts →
        t'.status = TradeStatus.OPEN ∧ t'.outcome = none) :=
  settleTrade_settlement_math wStore 0 2 3 wTradeOpen (by decide) (by decide) (by decide)
    (by decide) (by decide)

/-- C2: settleTrade fails with NotFoundError when the trade is missing,
StateError when it is not OPEN, ValidationError when more contracts are
requested than remain; every failure leaves the store untouched (no trade
field changes, no fill is created). -/
theorem settleTrade_error_cases (s : Store) (tid : ℕ) (c : ℤ) (p : ℚ) :
    (findBuyTrade s tid = none → settleTrade s tid c p = .error TradeError.NotFoundError) ∧
    (∀ t, findBuyTrade s tid = some t → t.status ≠ TradeStatus.OPEN →
      settleTrade s tid c p = .error TradeError.StateError) ∧
    (∀ t, findBuyTrade s tid = some t → t.status = TradeStatus.OPEN →
      t.remainingOpenContracts < c →
      settleTrade s tid c p = .error TradeError.ValidationError) ∧
    (∀ e, settleTrade s tid c p = .error e → applyOp s (Op.settle tid c p) = s) := by
  refine ⟨?_, ?_, ?_, ?_⟩
  · intro h
    simp [settleTrade, h]
  · intro t ht hs
    simp [settleTrade, ht, hs]
  · intro t ht hs hc
    simp [settleTrade, ht, hs, hc]
  · intro e he
    simp [applyOp, he]

/-- Witness for C2 at the fixture store. -/
theorem settleTrade_error_cases_witness :
    settleTrade wStore 5 1 1 = .error TradeError.NotFoundError ∧
    settleTrade wStore 1 1 1 = .error TradeError.StateError ∧
    settleTrade wStore 0 4 1 = .error TradeError.ValidationError ∧
    applyOp wStore (Op.settle 5 1 1) = wStore := by
  refine ⟨?_, ?_, ?_, ?_⟩
  · exact (settleTrade_error_cases wStore 5 1 1).1 (by decide)
  · exact (settleTrade_error_cases wStore 1 1 1).2.1 wTradeClosed (by decide) (by decide)
  · exact (settleTrade_error_cases wStore 0 4 1).2.2.1 wTradeOpen (by decide) (by decide)
      (by decide)
  · exact (settleTrade_error_cases wStore 5 1 1).2.2.2 TradeError.NotFoundError
      ((settleTrade_error_cases wStore 5 1 1).1 (by decide))

/-- C7: deleting a CLOSED or REJECTED trade fails with StateError and
changes nothing; deleting an OPEN trade removes it together with every
fill recorded against it (no orphaned fills), while unrelated trades and
fills survive. -/
theorem deleteTrade_state_and_cascade (s : Store) (tid : ℕ) :
    (∀ t, findTrade s tid = some t →
      (t.status = TradeStatus.CLOSED ∨ t.status = TradeStatus.REJECTED) →
      deleteTrade s tid = .error TradeError.StateError ∧
      applyOp s (Op.delete tid) = s) ∧
    (∀ t, findTrade s tid = some t → t.status = TradeStatus.OPEN →
      ∃ s', deleteTrade s tid = .ok s' ∧
        (∀ u ∈ s'.trades, u.id ≠ t.id) ∧
        (∀ f ∈ s'.fills, f.tradeId ≠ t.id) ∧
        (∀ u ∈ s'.trades, u ∈ s.trades) ∧
        (∀ f ∈ s.fills, f.tradeId ≠ t.id → f ∈ s'.fills)) := by
  constructor
  · intro t ht hstat
    have hne : t.status ≠ TradeStatus.OPEN := by
      rcases hstat with h | h <;> simp [h]
    have herr : deleteTrade s tid = .error TradeError.StateError := by
      simp [deleteTrade, ht, hne]
    exact ⟨herr, by simp [applyOp, herr]⟩
  · intro t ht hstat
    refine ⟨{ s with
        fills := s.fills.filter (fun f => !(f.tradeId == t.id)),
        trades := s.trades.filter (fun u => !(u.id == t.id)) },
      by simp [deleteTrade, ht, hstat], ?_, ?_, ?_, ?_⟩
    · intro u hu
      have := (List.mem_filter.mp hu).2
      simpa using this
    · intro f hf
      have := (List.mem_filter.mp hf).2
      simpa using this
    · intro u hu
      exact (List.mem_filter.mp hu).1
    · intro f hf hne
      exact List.mem_filter.mpr ⟨hf, by simpa using hne⟩

/-- Witness for C7 at the fixture store. -/
theorem deleteTrade_state_and_cascade_witness :
    (deleteTrade wStore 1 = .error TradeError.StateError ∧
      applyOp wStore (Op.delete 1) = wStore) ∧
    ∃ s', deleteTrade wStore 0 = .ok s' ∧
      (∀ u ∈ s'.trades, u.id ≠ wTradeOpen.id) ∧
      (∀ f ∈ s'.fills, f.tradeId ≠ wTradeOpen.id) ∧
      (∀ u ∈ s'.trades, u ∈ wStore.trades) ∧
      (∀ f ∈ wStore.fills, f.tradeId ≠ wTradeOpen.id → f ∈ s'.fills) := by
  constructor
  · exact (deleteTrade_state_and_cascade wStore 1).1 wTradeClosed (by decide) (Or.inl (by decide))
  · exact (deleteTrade_state_and_cascade wStore 0).2 wTradeOpen (by decide) (by decide)

/-- C8: when price verification succeeds the created trade is OPEN,
price-verified, has all contracts remaining and buy notional
contracts * fillPrice * 100; when verification fails a trade is still
persisted and returned, REJECTED and not price-verified, with all
contracts remaining. -/
theorem createTrade_price_verification (s : Store) (c : ℤ) (fp : ℚ) (pv : PriceValidation) :
    (pv.isValid = true → falsyNum pv.refPrice = false → falsyStr pv.optionContract = false →
      (createTrade s c fp pv).2.status = TradeStatus.OPEN ∧
      (createTrade s c fp pv).2.priceVerified = true ∧
      (createTrade s c fp pv).2.remainingOpenContracts = c ∧
      (createTrade s c fp pv).2.totalBuyNotional = (c : ℚ) * fp * 100 ∧
      (createTrade s c fp pv).2 ∈ (createTrade s c fp pv).1.trades) ∧
    ((pv.isValid = false ∨ falsyNum pv.refPrice = true ∨ falsyStr pv.optionContract = true) →
      (createTrade s c fp pv).2.status = TradeStatus.REJECTED ∧
      (createTrade s c fp pv).2.priceVerified = false ∧
      (createTrade s c fp pv).2.remainingOpenContracts = c ∧
      (createTrade s c fp pv).2 ∈ (createTrade s c fp pv).1.trades) := by
  constructor
  · intro hv hr ho
    simp [createTrade, hv, hr, ho]
  · intro h
    rcases h with h | h | h <;> simp [createTrade, h]

/-- Wellformed stores: trade ids and fill references stay below the id
generator, trade ids are unique (Mongo `_id`s), and each trade's remaining
contracts plus its settled SELL contracts equal the bought contracts. -/
def WellFormed (s : Store) : Prop :=
  (∀ t ∈ s.trades, t.id < s.nextId) ∧
  (∀ f ∈ s.fills, f.tradeId < s.nextId) ∧
  (s.trades.map Trade.id).Nodup ∧
  ∀ t ∈ s.trades,
    t.remainingOpenContracts + ((sellFillsOf s t.id).map TradeFill.contracts).sum = t.contracts

theorem wf_empty : WellFormed Store.empty := by
  refine ⟨?_, ?_, ?_, ?_⟩ <;> simp [Store.empty]

theorem id_inj_of_nodup (l : List Trade) (hnd : (l.map Trade.id).Nodup)
    (a b : Trade) (ha : a ∈ l) (hb : b ∈ l) (heq : a.id = b.id) : a = b := by
  by_cases hab : a = b
  · exact hab
  · have hp : l.Pairwise (fun u v => u.id ≠ v.id) := List.pairwise_map.mp hnd
    have hsymm : Symmetric (fun u v : Trade => u.id ≠ v.id) :=
      fun x y h e => h e.symm
    exact absurd heq (List.Pairwise.forall hsymm hp ha hb hab)

theorem wf_createTrade (s : Store) (c : ℤ) (p : ℚ) (pv : PriceValidation)
    (h : WellFormed s) : WellFormed (createTrade s c p pv).1 := by
  obtain ⟨hlt, hflt, hnd, hinv⟩ := h
  have key : ∀ tr : Trade, tr.id = s.nextId → tr.remainingOpenContracts = tr.contracts →
      WellFormed ⟨s.nextId + 1, s.trades ++ [tr], s.fills⟩ := by
    intro tr hid hrem
    refine ⟨?_, ?_, ?_, ?_⟩
    · intro t htm
      rcases List.mem_append.mp htm with hmem | hmem
      · exact Nat.lt_succ_of_lt (hlt t hmem)
      · have : t = tr := by simpa using hmem
        subst this
        rw [hid]
        exact Nat.lt_succ_self _
    · intro f hf
      exact Nat.lt_succ_of_lt (hflt f hf)
    · rw [List.map_append]
      refine List.Nodup.append hnd (by simp) ?_
      intro a ha hb
      have hb' : a = tr.id := by simpa using hb
      obtain ⟨u, hu, hau⟩ := List.mem_map.mp ha
      have hu_lt := hlt u hu
      rw [← hau] at hb'
      rw [hb', hid] at hu_lt
      exact lt_irrefl _ hu_lt
    · intro t htm
      have hfills : sellFillsOf ⟨s.nextId + 1, s.trades ++ [tr], s.fills⟩ t.id
          = sellFillsOf s t.id := rfl
      rcases List.mem_append.mp htm with hmem | hmem
      · rw [hfills]
        exact hinv t hmem
      · have : t = tr := by simpa using hmem
        subst this
        rw [hfills, hrem]
        have hnil : sellFillsOf s t.id = [] := by
          refine List.filter_eq_nil_iff.mpr ?_
          intro f hf
          have hbound := hflt f hf
          simp only [Bool.and_eq_true, beq_iff_eq, not_and]
          intro hcontra
          rw [hcontra, hid] at hbound
          exact absurd hbound (lt_irrefl _)
        rw [hnil]
        simp
  unfold createTrade
  split
  · exact key _ rfl rfl
  · exact key _ rfl rfl

theorem wf_settledStore (s : Store) (tid : ℕ) (c : ℤ) (p : ℚ) (t : Trade)
    (hfind : findBuyTrade s tid = some t) (h : WellFormed s) :
    WellFormed (settledStore s t c p) := by
  obtain ⟨hlt, hflt, hnd, hinv⟩ := h
  have htmem : t ∈ s.trades := List.mem_of_find?_eq_some hfind
  have hgid : ∀ u : Trade,
      (if u.id = t.id then settledTrade s t c p else u).id = u.id := by
    intro u
    by_cases hu : u.id = t.id
    · rw [if_pos hu, settledTrade_id, hu]
    · rw [if_neg hu]
  refine ⟨?_, ?_, ?_, ?_⟩
  · intro u htm
    obtain ⟨v, hv, hvu⟩ := List.mem_map.mp htm
    have := hlt v hv
    rw [← hvu, hgid]
    exact this
  · intro f hf
    rcases List.mem_append.mp hf with hmem | hmem
    · exact hflt f hmem
    · have : f = settleFill t c p := by simpa using hmem
      subst this
      exact hlt t htmem
  · show ((s.trades.map (fun u => if u.id = t.id then settledTrade s t c p else u)).map
        Trade.id).Nodup
    rw [List.map_map]
    have : s.trades.map (Trade.id ∘ fun u => if u.id = t.id then settledTrade s t c p else u)
        = s.trades.map Trade.id := by
      refine List.map_congr_left ?_
      intro u _
      simp only [Function.comp_apply]
      exact hgid u
    rw [this]
    exact hnd
  · intro u' htm
    obtain ⟨u, hu, huu⟩ := List.mem_map.mp htm
    by_cases hid : u.id = t.id
    · have hut : u = t := id_inj_of_nodup s.trades hnd u t hu htmem hid
      subst hut
      rw [if_pos rfl] at huu
      subst huu
      have hsub : sellFillsOf (settledStore s u c p) (settledTrade s u c p).id
          = sellFillsOf s u.id ++ [settleFill u c p] := by
        rw [settledTrade_id]
        unfold sellFillsOf settledStore
        rw [List.filter_append]
        simp [settleFill]
      rw [hsub]
      have hrem : (settledTrade s u c p).remainingOpenContracts
          = u.remainingOpenContracts - c := by
        unfold settledTrade
        split <;> rfl
      have hcon : (settledTrade s u c p).contracts = u.contracts := by
        unfold settledTrade
        split <;> rfl
      rw [hrem, hcon, List.map_append, List.sum_append]
      have hbase := hinv u hu
      have hfc : ([settleFill u c p].map TradeFill.contracts).sum = c := by
        simp [settleFill]
      rw [hfc]
      omega
    · rw [if_neg hid] at huu
      subst huu
      have hsub : sellFillsOf (settledStore s t c p) u.id = sellFillsOf s u.id := by
        unfold sellFillsOf settledStore
        rw [List.filter_append]
        have hfnot : ([settleFill t c p].filter
            (fun f => f.tradeId == u.id && f.side == Side.SELL)) = [] := by
          refine List.filter_eq_nil_iff.mpr ?_
          intro f hf
          have : f = settleFill t c p := by simpa using hf
          subst this
          simp only [Bool.and_eq_true, beq_iff_eq, not_and]
          intro hcontra
          exact absurd hcontra.symm hid
        rw [hfnot, List.append_nil]
      rw [hsub]
      exact hinv u hu

theorem wf_applyOp (s : Store) (op : Op) (h : WellFormed s) : WellFormed (applyOp s op) := by
  cases op with
  | create c p pv =>
    simpa only [applyOp] using wf_createTrade s c p pv h
  | settle tid c p =>
    cases hfind : findBuyTrade s tid with
    | none =>
      have herr : settleTrade s tid c p = .error TradeError.NotFoundError := by
        simp [settleTrade, hfind]
      simp only [applyOp, herr]
      exact h
    | some t =>
      by_cases hst : t.status = TradeStatus.OPEN
      · by_cases hlt2 : t.remainingOpenContracts < c
        · have herr : settleTrade s tid c p = .error TradeError.ValidationError := by
            simp [settleTrade, hfind, hst, hlt2]
          simp only [applyOp, herr]
          exact h
        · have hok := settleTrade_ok_eq s tid c p t hfind hst hlt2
          simp only [applyOp, hok]
          exact wf_settledStore s tid c p t hfind h
      · have herr : settleTrade s tid c p = .error TradeError.StateError := by
          simp [settleTrade, hfind, hst]
        simp only [applyOp, herr]
        exact h
  | delete tid =>
    cases hfind : findTrade s tid with
    | none =>
      have herr : deleteTrade s tid = .error TradeError.NotFoundError := by
        simp [deleteTrade, hfind]
      simp only [applyOp, herr]
      exact h
    | some t =>
      by_cases hst : t.status = TradeStatus.OPEN
      · have hok : deleteTrade s tid = .ok ⟨s.nextId,
            s.trades.filter (fun u => !(u.id == t.id)),
            s.fills.filter (fun f => !(f.tradeId == t.id))⟩ := by
          simp [deleteTrade, hfind, hst]
        simp only [applyOp, hok]
        obtain ⟨hlt, hflt, hnd, hinv⟩ := h
        refine ⟨?_, ?_, ?_, ?_⟩
        · intro u hu
          exact hlt u (List.mem_of_mem_filter hu)
        · intro f hf
          exact hflt f (List.mem_of_mem_filter hf)
        · exact hnd.sublist (List.Sublist.map Trade.id (List.filter_sublist s.trades))
        · intro u hu
          have humem : u ∈ s.trades := List.mem_of_mem_filter hu
          have hune : ¬ (u.id = t.id) := by
            have hb := (List.mem_filter.mp hu).2
            simpa using hb
          have hsell : sellFillsOf ⟨s.nextId,
              s.trades.filter (fun v => !(v.id == t.id)),
              s.fills.filter (fun f => !(f.tradeId == t.id))⟩ u.id
              = sellFillsOf s u.id := by
            unfold sellFillsOf
            rw [List.filter_filter]
            refine List.filter_congr ?_
            intro f _
            by_cases hPf : (f.tradeId == u.id && f.side == Side.SELL) = true
            · have hft : f.tradeId = u.id := by
                have hPf' := hPf
                simp only [Bool.and_eq_true, beq_iff_eq] at hPf'
                exact hPf'.1
              have hq : (!(f.tradeId == t.id)) = true := by
                simp [hft, hune]
              rw [hPf, hq]
              rfl
            · rw [Bool.not_eq_true] at hPf
              rw [hPf]
              simp
          rw [hsell]
          exact hinv u humem
      · have herr : deleteTrade s tid = .error TradeError.StateError := by
          simp [deleteTrade, hfind, hst]
        simp only [applyOp, herr]
        exact h

theorem wf_runOps (ops : List Op) : WellFormed (runOps ops) := by
  have h : ∀ s : Store, WellFormed s → WellFormed (ops.foldl applyOp s) := by
    induction ops with
    | nil =>
      intro s hs
      exact hs
    | cons op rest ih =>
      intro s hs
      exact ih (applyOp s op) (wf_applyOp s op hs)
  exact h Store.empty wf_empty

/-- C3: after any sequence of requests against initially empty collections,
every trade satisfies remainingOpenContracts + sum of its SELL fill
contracts = contracts; trade creation starts with all contracts remaining
and touches no fills; a successful settlement appends exactly one SELL
fill whose contract count equals the settled amount. -/
theorem trade_contracts_invariant :
    (∀ ops : List Op, ∀ t ∈ (runOps ops).trades,
      t.remainingOpenContracts +
        ((sellFillsOf (runOps ops) t.id).map TradeFill.contracts).sum = t.contracts) ∧
    (∀ (s : Store) (c : ℤ) (p : ℚ) (pv : PriceValidation),
      (createTrade s c p pv).2.remainingOpenContracts = c ∧
      (createTrade s c p pv).1.fills = s.fills) ∧
    (∀ (s : Store) (tid : ℕ) (c : ℤ) (p : ℚ) (r : Store × TradeFill),
      settleTrade s tid c p = .ok r →
      r.2.side = Side.SELL ∧ r.2.contracts = c ∧ r.1.fills = s.fills ++ [r.2]) := by
  refine ⟨?_, ?_, ?_⟩
  · intro ops t htm
    exact (wf_runOps ops).2.2.2 t htm
  · intro s c p pv
    constructor
    · unfold createTrade
      split <;> rfl
    · unfold createTrade
      split <;> rfl
  · intro s tid c p r hok
    cases hfind : findBuyTrade s tid with
    | none =>
      have herr : settleTrade s tid c p = .error TradeError.NotFoundError := by
        simp [settleTrade, hfind]
      rw [herr] at hok
      exact absurd hok (by simp)
    | some t =>
      by_cases hst : t.status = TradeStatus.OPEN
      · by_cases hlt2 : t.remainingOpenContracts < c
        · have herr : settleTrade s tid c p = .error TradeError.ValidationError := by
            simp [settleTrade, hfind, hst, hlt2]
          rw [herr] at hok
          exact absurd hok (by simp)
        · have heq := settleTrade_ok_eq s tid c p t hfind hst hlt2
          rw [heq] at hok
          have hr : r = (settledStore s t c p, settleFill t c p) := (Except.ok.inj hok).symm
          subst hr
          exact ⟨rfl, rfl, rfl⟩
      · have herr : settleTrade s tid c p = .error TradeError.StateError := by
          simp [settleTrade, hfind, hst]
        rw [herr] at hok
        exact absurd hok (by simp)

/-- Fixture: the single request creating a rejected trade. -/
def wOps : List Op := [Op.create 1 1 ⟨false, none, none⟩]

/-- Fixture: the trade document `runOps wOps` persists. -/
def wRejTrade : Trade := ⟨0, Side.BUY, 1, 1, TradeStatus.REJECTED, false, 1, 0, 0, none, none⟩

/-- Witness for C3 at a concrete run, creation and settlement. -/
theorem trade_contracts_invariant_witness :
    (wRejTrade.remainingOpenContracts +
      ((sellFillsOf (runOps wOps) wRejTrade.id).map TradeFill.contracts).sum
        = wRejTrade.contracts) ∧
    ((createTrade wStore 2 1 ⟨false, none, none⟩).2.remainingOpenContracts = 2 ∧
      (createTrade wStore 2 1 ⟨false, none, none⟩).1.fills = wStore.fills) ∧
    ((settleFill wTradeOpen 2 3).side = Side.SELL ∧
      (settleFill wTradeOpen 2 3).contracts = 2 ∧
      (settledStore wStore wTradeOpen 2 3).fills
        = wStore.fills ++ [settleFill wTradeOpen 2 3]) := by
  refine ⟨?_, ?_, ?_⟩
  · exact trade_contracts_invariant.1 wOps wRejTrade (by decide)
  · exact trade_contracts_invariant.2.1 wStore 2 1 ⟨false, none, none⟩
  · exact trade_contracts_invariant.2.2 wStore 0 2 3
      (settledStore wStore wTradeOpen 2 3, settleFill wTradeOpen 2 3)
      (settleTrade_ok_eq wStore 0 2 3 wTradeOpen (by decide) (by decide) (by decide))

/-- Witness for C8: one verified creation, one rejected creation. -/
theorem createTrade_price_verification_witness :
    ((createTrade wStore 3 2 ⟨true, some 1, some "O:AAPL"⟩).2.status = TradeStatus.OPEN ∧
      (createTrade wStore 3 2 ⟨true, some 1, some "O:AAPL"⟩).2.totalBuyNotional =
        ((3 : ℤ) : ℚ) * 2 * 100) ∧
    ((createTrade wStore 3 2 ⟨false, none, none⟩).2.status = TradeStatus.REJECTED ∧
      (createTrade wStore 3 2 ⟨false, none, none⟩).2.priceVerified = false ∧
      (createTrade wStore 3 2 ⟨false, none, none⟩).2.remainingOpenContracts = 3) := by
  have h1 := (createTrade_price_verification wStore 3 2 ⟨true, some 1, some "O:AAPL"⟩).1
    (by decide) (by decide) (by decide)
  have h2 := (createTrade_price_verification wStore 3 2 ⟨false, none, none⟩).2
    (Or.inl (by decide))
  exact ⟨⟨h1.1, h1.2.2.2.1⟩, ⟨h2.1, h2.2.1, h2.2.2.1⟩⟩

/-- Modelled from the spec: the streak calculator `aggregationStreakFunction`
(src/lib/aggregation/streaks.ts) is invoked by the leaderboard route's
`$function` stage but its source file is not among the provided files.
Spec section 4.3: iterate chronologically over CLOSED-trade outcomes with a
signed running counter — a WIN extends a positive run or starts one at +1,
a LOSS extends a negative run or starts one at -1, a BREAKEVEN resets the
counter to 0 and breaks both kinds of run; the longest streak is tracked
by absolute magnitude, keeping the sign of the longest run and, on ties,
the earliest-achieved run's sign. -/
def streakStep (st : ℤ × ℤ) (o : Outcome) : ℤ × ℤ :=
  let cur := match o with
    | Outcome.WIN => if 0 < st.1 then st.1 + 1 else 1
    | Outcome.LOSS => if st.1 < 0 then st.1 - 1 else -1
    | Outcome.BREAKEVEN => 0
  let longest := if st.2.natAbs < cur.natAbs then cur else st.2
  (cur, longest)

/-- Modelled from the spec: the `(currentStreak, longestStreak)` pair the
streak calculator returns for a chronologically ordered outcome sequence. -/
def computeStreaks (outcomes : List Outcome) : ℤ × ℤ :=
  outcomes.foldl streakStep (0, 0)

/-- C6: the streak calculator's worked examples from spec section 8, plus
the running-counter structure: the result after one more outcome is one
`streakStep` applied to the previous state, and `currentStreak` is the
final counter value. -/
theorem streak_calculator_spec :
    computeStreaks [Outcome.WIN, Outcome.WIN, Outcome.LOSS, Outcome.WIN] = (1, 2) ∧
    computeStreaks [Outcome.LOSS, Outcome.LOSS, Outcome.LOSS] = (-3, -3) ∧
    computeStreaks [] = (0, 0) ∧
    computeStreaks [Outcome.WIN, Outcome.BREAKEVEN, Outcome.WIN] = (1, 1) ∧
    ∀ (xs : List Outcome) (o : Outcome),
      computeStreaks (xs ++ [o]) = streakStep (computeStreaks xs) o := by
  refine ⟨by decide, by decide, by decide, by decide, ?_⟩
  intro xs o
  unfold computeStreaks
  rw [List.foldl_append]
  rfl

/-- MongoDB `$round [x, 2]` over ℚ: round half to even at two decimals. -/
def mongoRound2 (q : ℚ) : ℚ :=
  (if Int.fract (q * 100) < 1/2 then ⌊q * 100⌋
   else if 1/2 < Int.fract (q * 100) then ⌊q * 100⌋ + 1
   else if Even ⌊q * 100⌋ then ⌊q * 100⌋ else ⌊q * 100⌋ + 1 : ℚ) / 100

/-- The `winRate` `$addFields` expression of the leaderboard pipeline
(route lines 234-252): guarded percentage of wins among decided trades,
rounded to 2 decimals. -/
def winRateExpr (winCount lossCount : ℕ) : ℚ :=
  mongoRound2 (if 0 < winCount + lossCount
    then ((winCount : ℚ) / ((winCount : ℚ) + (lossCount : ℚ))) * 100
    else 0)

/-- The `roi` `$addFields` expression of the leaderboard pipeline
(route lines 253-269): guarded netPnl / totalBuyNotional percentage,
rounded to 2 decimals. -/
def roiExpr (netPnl totalBuyNotional : ℚ) : ℚ :=
  mongoRound2 (if 0 < totalBuyNotional then netPnl / totalBuyNotional * 100 else 0)

theorem mongoRound2_zero : mongoRound2 0 = 0 := by
  unfold mongoRound2
  norm_num

/-- C9 counterexample: with 1 win and 2 losses the stored winRate is the
2-decimal rounding 33.33, not the exact wins/(wins+losses)*100 = 100/3, so
the claim's unrounded equality fails on the code. -/
theorem winRate_rounding_cex :
    winRateExpr 1 2 ≠ ((1 : ℚ) / ((1 : ℚ) + (2 : ℚ))) * 100 := by
  have hval : winRateExpr 1 2 = 3333/100 := by
    unfold winRateExpr mongoRound2
    norm_num
    rw [Int.fract]
    have hfl : ⌊(10000 : ℚ)/3⌋ = 3333 := by
      rw [Int.floor_eq_iff]
      norm_num
    rw [hfl]
    norm_num
  rw [hval]
  norm_num

/-- C9 (amended): winRate and roi follow the guarded formulas rounded to
two decimals; with no decided trades winRate is 0 and with nonpositive
buy notional roi is 0, so the division is only taken behind its guard. -/
theorem winRate_roi_guarded (w l : ℕ) (n tbn : ℚ) :
    (w + l = 0 → winRateExpr w l = 0) ∧
    (0 < w + l → winRateExpr w l = mongoRound2 (((w : ℚ) / ((w : ℚ) + (l : ℚ))) * 100)) ∧
    (tbn ≤ 0 → roiExpr n tbn = 0) ∧
    (0 < tbn → roiExpr n tbn = mongoRound2 (n / tbn * 100)) := by
  refine ⟨?_, ?_, ?_, ?_⟩
  · intro h
    unfold winRateExpr
    rw [if_neg (by omega)]
    exact mongoRound2_zero
  · intro h
    unfold winRateExpr
    rw [if_pos h]
  · intro h
    unfold roiExpr
    rw [if_neg (not_lt.mpr h)]
    exact mongoRound2_zero
  · intro h
    unfold roiExpr
    rw [if_pos h]

/-- Witness for C9 at concrete counts and notionals. -/
theorem winRate_roi_guarded_witness :
    winRateExpr 0 0 = 0 ∧
    winRateExpr 1 3 = mongoRound2 (((1 : ℚ) / ((1 : ℚ) + (3 : ℚ))) * 100) ∧
    roiExpr 5 0 = 0 ∧
    roiExpr 5 2 = mongoRound2 ((5 : ℚ) / 2 * 100) := by
  refine ⟨?_, ?_, ?_, ?_⟩
  · exact (winRate_roi_guarded 0 0 0 0).1 rfl
  · exact (winRate_roi_guarded 1 3 0 0).2.1 (by norm_num)
  · exact (winRate_roi_guarded 0 0 5 0).2.2.1 le_rfl
  · exact (winRate_roi_guarded 0 0 5 2).2.2.2 (by norm_num)

/-- One aggregated leaderboard document as it reaches the `$sort` stage of
the pipeline: `_id` (an ObjectId, totally ordered, unique) is `id`, the
computed stats fields, and `aliasLower` (the lowercased display name used
as a tie-break key).  The searchable name fields are only consulted by the
regex search collaborator, which is abstracted as a predicate. -/
structure LBDoc where
  id : ℕ
  aliasLower : String
  roi : ℚ
  winRate : ℚ
  netPnl : ℚ
  plays : ℕ
  currentStreak : ℤ
  longestStreak : ℤ
deriving DecidableEq

/-- The sortable fields that `buildSortSpec` can emit (`_id` is `idField`). -/
inductive SortField
  | aliasLower
  | roi
  | winRate
  | netPnl
  | plays
  | currentStreak
  | longestStreak
  | idField
deriving DecidableEq

/-- `buildSortSpec` (route lines 25-68): a Mongo sort document, modelled as
the insertion-ordered list of (field, direction) pairs, direction 1 for
ascending and -1 for descending.  Each named column sorts by that column
in the requested direction with the inverse direction on its secondary
key; `aliasLower` and `_id` are appended as final keys when absent. -/
def buildSortSpec (sortColumn : String) (sortDirection : String) : List (SortField × ℤ) :=
  let direction : ℤ := if sortDirection = "asc" then 1 else -1
  let inverseDirection : ℤ := if direction = 1 then -1 else 1
  let base : List (SortField × ℤ) :=
    match sortColumn with
    | "capper" =>
      [(SortField.aliasLower, direction), (SortField.roi, inverseDirection),
        (SortField.winRate, inverseDirection)]
    | "winRate" => [(SortField.winRate, direction), (SortField.roi, inverseDirection)]
    | "roi" => [(SortField.roi, direction), (SortField.winRate, inverseDirection)]
    | "netPnl" => [(SortField.netPnl, direction), (SortField.roi, inverseDirection)]
    | "winsLosses" => [(SortField.plays, direction), (SortField.roi, inverseDirection)]
    | "currentStreak" =>
      [(SortField.currentStreak, direction), (SortField.roi, inverseDirection)]
    | "longestStreak" =>
      [(SortField.longestStreak, direction), (SortField.roi, inverseDirection)]
    | _ => [(SortField.roi, direction), (SortField.winRate, direction)]
  let withAlias := if base.any (fun kv => kv.1 == SortField.aliasLower) then base
    else base ++ [(SortField.aliasLower, 1)]
  withAlias ++ [(SortField.idField, 1)]

/-- Three-way comparison in a linear order. -/
def ordCmp {α : Type} [LinearOrder α] (x y : α) : Ordering :=
  if x < y then Ordering.lt else if x = y then Ordering.eq else Ordering.gt

/-- Lexicographic comparison of character lists (code-point order). -/
def charListCmp : List Char → List Char → Ordering
  | [], [] => Ordering.eq
  | [], _ :: _ => Ordering.lt
  | _ :: _, [] => Ordering.gt
  | c :: cs, d :: ds =>
    match ordCmp c d with
    | Ordering.eq => charListCmp cs ds
    | o => o

/-- String comparison by code points (Mongo compares the lowercased alias
keys bytewise; for the claims only a fixed total order matters). -/
def strCmp (x y : String) : Ordering :=
  charListCmp x.data y.data

/-- Comparison of two documents on one sort field (ascending sense). -/
def fieldOrd (f : SortField) (a b : LBDoc) : Ordering :=
  match f with
  | SortField.aliasLower => strCmp a.aliasLower b.aliasLower
  | SortField.roi => ordCmp a.roi b.roi
  | SortField.winRate => ordCmp a.winRate b.winRate
  | SortField.netPnl => ordCmp a.netPnl b.netPnl
  | SortField.plays => ordCmp a.plays b.plays
  | SortField.currentStreak => ordCmp a.currentStreak b.currentStreak
  | SortField.longestStreak => ordCmp a.longestStreak b.longestStreak
  | SortField.idField => ordCmp a.id b.id

/-- Mongo's lexicographic comparison along a sort document: a descending
key compares in the swapped sense, ties fall through to later keys. -/
def cmpBy : List (SortField × ℤ) → LBDoc → LBDoc → Ordering
  | [], _, _ => Ordering.eq
  | (f, dir) :: rest, a, b =>
    match (if dir = -1 then fieldOrd f b a else fieldOrd f a b) with
    | Ordering.eq => cmpBy rest a b
    | o => o

/-- Whether `a` sorts strictly before `b` under the sort document. -/
def docBefore (spec : List (SortField × ℤ)) (a b : LBDoc) : Bool :=
  decide (cmpBy spec a b = Ordering.lt)

/-- `$rank` of `$setWindowFields` with `sortBy: spec` over the documents
`docs` in the pipeline at that stage: 1 plus the number of documents that
sort strictly before `d` (rank ties share a value). -/
def mongoRank (spec : List (SortField × ℤ)) (docs : List LBDoc) (d : LBDoc) : ℕ :=
  1 + docs.countP (fun e => docBefore spec e d)

/-- Stable insertion of `x` into `l`, keeping existing order on ties. -/
def insertSorted {α : Type} (le : α → α → Bool) (x : α) : List α → List α
  | [] => [x]
  | y :: ys => if le x y then x :: y :: ys else y :: insertSorted le x ys

/-- Stable insertion sort (the `$sort` stage; with the unique `_id` as the
final key the sorted order is unique, so any correct sort agrees). -/
def sortDocs (spec : List (SortField × ℤ)) (l : List LBDoc) : List LBDoc :=
  l.foldr (insertSorted (fun a b => !(docBefore spec b a))) []

/-- The `$facet` data branch: `$skip ((page-1)*pageSize)` then
`$limit pageSize` (route lines 328-336). -/
def paginate {α : Type} (l : List α) (page pageSize : ℕ) : List α :=
  (l.drop ((page - 1) * pageSize)).take pageSize

/-- The leaderboard pipeline up to the `$facet` stage (route lines
309-355): when a search is supplied its `$match` stage is spliced in front
of the `$sort` stage, so filtering happens before sorting and before
`$setWindowFields` assigns ranks.  Produces (document, rank) rows. -/
def rankedRows (docs : List LBDoc) (search : Option (LBDoc → Bool))
    (sortColumn sortDirection : String) : List (LBDoc × ℕ) :=
  let spec := buildSortSpec sortColumn sortDirection
  let filtered := match search with
    | some pred => docs.filter pred
    | none => docs
  let sorted := sortDocs spec filtered
  sorted.map (fun d => (d, mongoRank spec filtered d))

/-- The page of rows the route returns. -/
def leaderboardData (docs : List LBDoc) (search : Option (LBDoc → Bool))
    (sortColumn sortDirection : String) (page pageSize : ℕ) : List (LBDoc × ℕ) :=
  paginate (rankedRows docs search sortColumn sortDirection) page pageSize

/-- The `totalCount` facet: the number of documents after the (possibly
search-filtered) pipeline, counted at the `$facet` stage. -/
def leaderboardTotal (docs : List LBDoc) (search : Option (LBDoc → Bool)) : ℕ :=
  (match search with
    | some pred => docs.filter pred
    | none => docs).length

/-- Fixture: the better-ranked document (higher ROI). -/
def docA : LBDoc := ⟨0, "a", 10, 50, 100, 4, 1, 2⟩

/-- Fixture: the lower-ranked document (lower ROI). -/
def docB : LBDoc := ⟨1, "b", 5, 50, 40, 4, 1, 1⟩

/-- C4 (code bug): the search `$match` is spliced before the `$sort` and
rank stages, so ranks are recomputed over the filtered set.  With two
eligible documents and a search matching only the lower one, that document
is returned with rank 1, while without the search it carries rank 2 —
search does renumber the returned rows, contradicting the spec. -/
theorem leaderboard_search_renumbers_ranks :
    leaderboardData [docA, docB] (some (fun d => d.id == 1)) "roi" "desc" 1 10
      = [(docB, 1)] ∧
    leaderboardData [docA, docB] none "roi" "desc" 1 10
      = [(docA, 1), (docB, 2)] := by
  constructor
  · decide
  · decide

/-- Lawfulness of a three-way comparison: reflexive ties, antisymmetry
under argument swap, transitivity of strict comparison, and congruence of
ties on the left argument. -/
structure LawfulCmp {α : Type} (cmp : α → α → Ordering) : Prop where
  refl : ∀ a, cmp a a = Ordering.eq
  swap_eq : ∀ a b, cmp a b = (cmp b a).swap
  lt_trans : ∀ {a b c}, cmp a b = Ordering.lt → cmp b c = Ordering.lt →
    cmp a c = Ordering.lt
  eq_left : ∀ {a b c}, cmp a b = Ordering.eq → cmp b c = cmp a c

theorem LawfulCmp.eq_right {α : Type} {cmp : α → α → Ordering} (h : LawfulCmp cmp)
    {a b c : α} (hbc : cmp b c = Ordering.eq) : cmp a b = cmp a c := by
  have hcb : cmp c b = Ordering.eq := by
    rw [h.swap_eq c b, hbc]
    rfl
  have h1 : cmp b a = cmp c a := h.eq_left hcb
  rw [h.swap_eq a b, h1, ← h.swap_eq a c]

theorem LawfulCmp.gt_of_lt {α : Type} {cmp : α → α → Ordering} (h : LawfulCmp cmp)
    {a b : α} (hab : cmp a b = Ordering.lt) : cmp b a = Ordering.gt := by
  have := h.swap_eq b a
  rw [hab] at this
  exact this

theorem LawfulCmp.lt_of_gt {α : Type} {cmp : α → α → Ordering} (h : LawfulCmp cmp)
    {a b : α} (hab : cmp a b = Ordering.gt) : cmp b a = Ordering.lt := by
  have hs := h.swap_eq a b
  rw [hab] at hs
  cases hv : cmp b a <;> rw [hv] at hs <;> first | rfl | exact absurd hs.symm (by decide)

theorem ordCmp_eq_lt_iff {α : Type} [LinearOrder α] (x y : α) :
    ordCmp x y = Ordering.lt ↔ x < y := by
  unfold ordCmp
  split_ifs with h1 h2 <;> simp_all

theorem ordCmp_eq_eq_iff {α : Type} [LinearOrder α] (x y : α) :
    ordCmp x y = Ordering.eq ↔ x = y := by
  unfold ordCmp
  split_ifs with h1 h2
  · constructor
    · intro h
      exact absurd h (by decide)
    · intro h
      exact absurd (h ▸ h1) (lt_irrefl y)
  · simp [h2]
  · constructor
    · intro h
      exact absurd h (by decide)
    · intro h
      exact absurd h h2

theorem ordCmp_eq_gt_iff {α : Type} [LinearOrder α] (x y : α) :
    ordCmp x y = Ordering.gt ↔ y < x := by
  unfold ordCmp
  split_ifs with h1 h2
  · simp [lt_asymm h1]
  · subst h2
    simp [lt_irrefl]
  · simp only [true_iff]
    rcases lt_trichotomy x y with h | h | h
    · exact absurd h h1
    · exact absurd h h2
    · exact h

theorem lawful_ordCmp {α : Type} [LinearOrder α] :
    LawfulCmp (fun x y : α => ordCmp x y) := by
  refine ⟨?_, ?_, ?_, ?_⟩
  · intro a
    exact (ordCmp_eq_eq_iff a a).mpr rfl
  · intro a b
    rcases lt_trichotomy a b with h | h | h
    · rw [(ordCmp_eq_lt_iff a b).mpr h, (ordCmp_eq_gt_iff b a).mpr h]
      rfl
    · rw [(ordCmp_eq_eq_iff a b).mpr h, (ordCmp_eq_eq_iff b a).mpr h.symm]
      rfl
    · rw [(ordCmp_eq_gt_iff a b).mpr h, (ordCmp_eq_lt_iff b a).mpr h]
      rfl
  · intro a b c hab hbc
    rw [ordCmp_eq_lt_iff] at hab hbc ⊢
    exact lt_trans hab hbc
  · intro a b c hab
    rw [ordCmp_eq_eq_iff] at hab
    subst hab
    rfl

/-- The lexicographic tie-fallthrough on Ordering values. -/
def lexOrd (o₁ o₂ : Ordering) : Ordering :=
  match o₁ with
  | Ordering.eq => o₂
  | o => o

theorem lexOrd_eq_lt_iff (o₁ o₂ : Ordering) :
    lexOrd o₁ o₂ = Ordering.lt ↔
      o₁ = Ordering.lt ∨ (o₁ = Ordering.eq ∧ o₂ = Ordering.lt) := by
  cases o₁ <;> simp [lexOrd]

theorem lexOrd_eq_eq_iff (o₁ o₂ : Ordering) :
    lexOrd o₁ o₂ = Ordering.eq ↔ o₁ = Ordering.eq ∧ o₂ = Ordering.eq := by
  cases o₁ <;> simp [lexOrd]

theorem lexOrd_swap (o₁ o₂ : Ordering) : (lexOrd o₁ o₂).swap = lexOrd o₁.swap o₂.swap := by
  cases o₁ <;> rfl

theorem charListCmp_cons (c d : Char) (cs ds : List Char) :
    charListCmp (c :: cs) (d :: ds) = lexOrd (ordCmp c d) (charListCmp cs ds) := by
  show (match ordCmp c d with
    | Ordering.eq => charListCmp cs ds
    | o => o) = lexOrd (ordCmp c d) (charListCmp cs ds)
  cases ordCmp c d <;> rfl

theorem charListCmp_eq_iff (l m : List Char) :
    charListCmp l m = Ordering.eq ↔ l = m := by
  induction l generalizing m with
  | nil =>
    cases m with
    | nil => simp [charListCmp]
    | cons d ds => simp [charListCmp]
  | cons c cs ih =>
    cases m with
    | nil => simp [charListCmp]
    | cons d ds =>
      rw [charListCmp_cons, lexOrd_eq_eq_iff, ordCmp_eq_eq_iff, ih]
      simp

theorem charListCmp_swap (l m : List Char) : charListCmp l m = (charListCmp m l).swap := by
  induction l generalizing m with
  | nil => cases m <;> rfl
  | cons c cs ih =>
    cases m with
    | nil => rfl
    | cons d ds =>
      rw [charListCmp_cons, charListCmp_cons, lexOrd_swap]
      rw [← lawful_ordCmp.swap_eq c d, ← ih ds]

theorem charListCmp_lt_trans : ∀ {a b c : List Char},
    charListCmp a b = Ordering.lt → charListCmp b c = Ordering.lt →
    charListCmp a c = Ordering.lt := by
  intro a
  induction a with
  | nil =>
    intro b c hab hbc
    cases b with
    | nil => exact absurd hab (by decide)
    | cons y ys =>
      cases c with
      | nil => simp [charListCmp] at hbc
      | cons z zs => rfl
  | cons x xs ih =>
    intro b c hab hbc
    cases b with
    | nil => simp [charListCmp] at hab
    | cons y ys =>
      cases c with
      | nil => simp [charListCmp] at hbc
      | cons z zs =>
        rw [charListCmp_cons, lexOrd_eq_lt_iff] at hab hbc ⊢
        rcases hab with hxy | ⟨hxy, htail⟩
        · rcases hbc with hyz | ⟨hyz, _⟩
          · exact Or.inl ((ordCmp_eq_lt_iff x z).mpr
              (lt_trans ((ordCmp_eq_lt_iff x y).mp hxy) ((ordCmp_eq_lt_iff y z).mp hyz)))
          · have : y = z := (ordCmp_eq_eq_iff y z).mp hyz
            subst this
            exact Or.inl hxy
        · rcases hbc with hyz | ⟨hyz, htail'⟩
          · have : x = y := (ordCmp_eq_eq_iff x y).mp hxy
            subst this
            exact Or.inl hyz
          · have hx : x = y := (ordCmp_eq_eq_iff x y).mp hxy
            have hy : y = z := (ordCmp_eq_eq_iff y z).mp hyz
            subst hx
            subst hy
            exact Or.inr ⟨(ordCmp_eq_eq_iff x x).mpr rfl, ih htail htail'⟩

theorem lawful_charListCmp : LawfulCmp charListCmp := by
  refine ⟨?_, ?_, ?_, ?_⟩
  · intro a
    exact (charListCmp_eq_iff a a).mpr rfl
  · exact charListCmp_swap
  · exact charListCmp_lt_trans
  · intro a b c hab
    have : a = b := (charListCmp_eq_iff a b).mp hab
    subst this
    rfl

theorem LawfulCmp.comap {α β : Type} {cmp : β → β → Ordering} (h : LawfulCmp cmp)
    (g : α → β) : LawfulCmp (fun a b => cmp (g a) (g b)) := by
  refine ⟨?_, ?_, ?_, ?_⟩
  · intro a
    exact h.refl (g a)
  · intro a b
    exact h.swap_eq (g a) (g b)
  · intro a b c hab hbc
    exact h.lt_trans hab hbc
  · intro a b c hab
    exact h.eq_left hab

theorem lawful_strCmp : LawfulCmp strCmp :=
  lawful_charListCmp.comap String.data

theorem lawful_fieldOrd (f : SortField) : LawfulCmp (fieldOrd f) := by
  cases f
  · exact lawful_strCmp.comap LBDoc.aliasLower
  · exact lawful_ordCmp.comap LBDoc.roi
  · exact lawful_ordCmp.comap LBDoc.winRate
  · exact lawful_ordCmp.comap LBDoc.netPnl
  · exact lawful_ordCmp.comap LBDoc.plays
  · exact lawful_ordCmp.comap LBDoc.currentStreak
  · exact lawful_ordCmp.comap LBDoc.longestStreak
  · exact lawful_ordCmp.comap LBDoc.id

theorem LawfulCmp.swapped {α : Type} {cmp : α → α → Ordering} (h : LawfulCmp cmp) :
    LawfulCmp (fun a b => cmp b a) := by
  refine ⟨?_, ?_, ?_, ?_⟩
  · intro a
    exact h.refl a
  · intro a b
    exact h.swap_eq b a
  · intro a b c hab hbc
    exact h.lt_trans hbc hab
  · intro a b c hab
    exact h.eq_right hab

theorem LawfulCmp.lex {α : Type} {f g : α → α → Ordering} (hf : LawfulCmp f)
    (hg : LawfulCmp g) : LawfulCmp (fun a b => lexOrd (f a b) (g a b)) := by
  refine ⟨?_, ?_, ?_, ?_⟩
  · intro a
    rw [hf.refl a, hg.refl a]
    rfl
  · intro a b
    rw [lexOrd_swap, ← hf.swap_eq a b, ← hg.swap_eq a b]
  · intro a b c hab hbc
    rw [lexOrd_eq_lt_iff] at hab hbc ⊢
    rcases hab with hab | ⟨hab, htab⟩
    · rcases hbc with hbc | ⟨hbc, _⟩
      · exact Or.inl (hf.lt_trans hab hbc)
      · exact Or.inl ((hf.eq_right hbc) ▸ hab)
    · rcases hbc with hbc | ⟨hbc, htbc⟩
      · exact Or.inl ((hf.eq_left hab) ▸ hbc)
      · refine Or.inr ⟨?_, hg.lt_trans htab htbc⟩
        rw [← hf.eq_left hab, hbc]
  · intro a b c hab
    rw [lexOrd_eq_eq_iff] at hab
    rw [hf.eq_left hab.1, hg.eq_left hab.2]

theorem cmpBy_cons (f : SortField) (dir : ℤ) (rest : List (SortField × ℤ)) (a b : LBDoc) :
    cmpBy ((f, dir) :: rest) a b
      = lexOrd (if dir = -1 then fieldOrd f b a else fieldOrd f a b) (cmpBy rest a b) := by
  show (match (if dir = -1 then fieldOrd f b a else fieldOrd f a b) with
    | Ordering.eq => cmpBy rest a b
    | o => o) = _
  cases (if dir = -1 then fieldOrd f b a else fieldOrd f a b) <;> rfl

theorem lawful_cmpBy (spec : List (SortField × ℤ)) : LawfulCmp (cmpBy spec) := by
  induction spec with
  | nil =>
    refine ⟨fun a => rfl, fun a b => rfl, ?_, ?_⟩
    · intro a b c hab _
      simp [cmpBy] at hab
    · intro a b c _
      rfl
  | cons kv rest ih =>
    obtain ⟨f, dir⟩ := kv
    have hhead : LawfulCmp (fun a b : LBDoc =>
        if dir = -1 then fieldOrd f b a else fieldOrd f a b) := by
      by_cases hdir : dir = -1
      · simp only [hdir, if_pos rfl]
        exact (lawful_fieldOrd f).swapped
      · simp only [if_neg hdir]
        exact lawful_fieldOrd f
    have hlex := hhead.lex ih
    have hfun : (fun a b : LBDoc => lexOrd
        (if dir = -1 then fieldOrd f b a else fieldOrd f a b) (cmpBy rest a b))
        = cmpBy ((f, dir) :: rest) := by
      funext a b
      rw [cmpBy_cons]
    rw [hfun] at hlex
    exact hlex

theorem cmpBy_eq_fields (spec : List (SortField × ℤ)) (a b : LBDoc)
    (h : cmpBy spec a b = Ordering.eq) :
    ∀ kv ∈ spec, fieldOrd kv.1 a b = Ordering.eq := by
  induction spec with
  | nil =>
    intro kv hkv
    cases hkv
  | cons kv0 rest ih =>
    obtain ⟨f, dir⟩ := kv0
    rw [cmpBy_cons, lexOrd_eq_eq_iff] at h
    intro kv hkv
    rcases List.mem_cons.mp hkv with rfl | hmem
    · by_cases hdir : dir = -1
      · rw [if_pos hdir] at h
        rw [(lawful_fieldOrd f).swap_eq a b, h.1]
        rfl
      · rw [if_neg hdir] at h
        exact h.1
    · exact ih h.2 kv hmem

theorem countP_lt_of {α : Type} (p q : α → Bool) :
    ∀ l : List α, (∀ x ∈ l, p x = true → q x = true) →
    ∀ a, a ∈ l → p a = false → q a = true → l.countP p < l.countP q := by
  intro l
  induction l with
  | nil =>
    intro _ a ha
    cases ha
  | cons x xs ih =>
    intro hpq a ha hpa hqa
    rw [List.countP_cons, List.countP_cons]
    rcases List.mem_cons.mp ha with rfl | hmem
    · have hmono : xs.countP p ≤ xs.countP q :=
        List.countP_mono_left (fun y hy hpy => hpq y (List.mem_cons_of_mem _ hy) hpy)
      rw [hpa, hqa]
      simp
      omega
    · have htail := ih (fun y hy => hpq y (List.mem_cons_of_mem _ hy)) a hmem hpa hqa
      by_cases hpx : p x = true
      · have hqx := hpq x (List.mem_cons_self x xs) hpx
        rw [hpx, hqx]
        simp
        omega
      · have hpx' : p x = false := by simpa using hpx
        rw [hpx']
        by_cases hqx : q x = true
        · rw [hqx]
          simp
          omega
        · have hqx' : q x = false := by simpa using hqx
          rw [hqx']
          simp
          omega

theorem docBefore_trans (spec : List (SortField × ℤ)) {a b c : LBDoc}
    (h1 : docBefore spec a b = true) (h2 : docBefore spec b c = true) :
    docBefore spec a c = true := by
  unfold docBefore at h1 h2 ⊢
  rw [decide_eq_true_iff] at h1 h2 ⊢
  exact (lawful_cmpBy spec).lt_trans h1 h2

theorem docBefore_irrefl (spec : List (SortField × ℤ)) (a : LBDoc) :
    docBefore spec a a = false := by
  unfold docBefore
  rw [(lawful_cmpBy spec).refl a]
  rfl

theorem docBefore_total (spec : List (SortField × ℤ))
    (hid : (SortField.idField, (1:ℤ)) ∈ spec) (a b : LBDoc) (hne : a.id ≠ b.id) :
    docBefore spec a b = true ∨ docBefore spec b a = true := by
  cases hcmp : cmpBy spec a b
  · left
    unfold docBefore
    rw [hcmp]
    rfl
  · exfalso
    have hfields := cmpBy_eq_fields spec a b hcmp (SortField.idField, 1) hid
    exact hne ((ordCmp_eq_eq_iff a.id b.id).mp hfields)
  · right
    unfold docBefore
    rw [(lawful_cmpBy spec).lt_of_gt hcmp]
    rfl

theorem mongoRank_lt_of_before (spec : List (SortField × ℤ)) (docs : List LBDoc)
    (a b : LBDoc) (ha : a ∈ docs) (hab : docBefore spec a b = true) :
    mongoRank spec docs a < mongoRank spec docs b := by
  unfold mongoRank
  have h := countP_lt_of (fun e => docBefore spec e a) (fun e => docBefore spec e b) docs
    (fun e _ hea => docBefore_trans spec hea hab) a ha (docBefore_irrefl spec a) hab
  omega

theorem mongoRank_le_length (spec : List (SortField × ℤ)) (docs : List LBDoc)
    (d : LBDoc) (hd : d ∈ docs) : mongoRank spec docs d ≤ docs.length := by
  unfold mongoRank
  have h := countP_lt_of (fun e => docBefore spec e d) (fun _ => true) docs
    (fun x _ _ => rfl) d hd (docBefore_irrefl spec d) rfl
  have h2 : docs.countP (fun _ => true) = docs.length := congrFun List.countP_true docs
  omega

theorem lbdoc_id_inj (docs : List LBDoc) (hnd : (docs.map LBDoc.id).Nodup)
    (a b : LBDoc) (ha : a ∈ docs) (hb : b ∈ docs) (heq : a.id = b.id) : a = b := by
  by_cases hab : a = b
  · exact hab
  · have hp : docs.Pairwise (fun u v => u.id ≠ v.id) := List.pairwise_map.mp hnd
    have hsymm : Symmetric (fun u v : LBDoc => u.id ≠ v.id) :=
      fun x y h e => h e.symm
    exact absurd heq (List.Pairwise.forall hsymm hp ha hb hab)

theorem lexOrd_eq_left (o : Ordering) : lexOrd Ordering.eq o = o := rfl

theorem buildSortSpec_default_eq :
    buildSortSpec "roi" "desc" = [(SortField.roi, -1), (SortField.winRate, 1),
      (SortField.aliasLower, 1), (SortField.idField, 1)] := by decide

theorem docBefore_default_of_roi {a b : LBDoc} (h : b.roi < a.roi) :
    docBefore (buildSortSpec "roi" "desc") a b = true := by
  unfold docBefore
  rw [buildSortSpec_default_eq, cmpBy_cons, if_pos rfl]
  have hf : fieldOrd SortField.roi b a = Ordering.lt := (ordCmp_eq_lt_iff b.roi a.roi).mpr h
  rw [hf]
  rfl

theorem docBefore_default_of_winRate {a b : LBDoc} (hroi : a.roi = b.roi)
    (h : a.winRate < b.winRate) : docBefore (buildSortSpec "roi" "desc") a b = true := by
  unfold docBefore
  rw [buildSortSpec_default_eq, cmpBy_cons, if_pos rfl]
  have h1 : fieldOrd SortField.roi b a = Ordering.eq :=
    (ordCmp_eq_eq_iff b.roi a.roi).mpr hroi.symm
  rw [h1, lexOrd_eq_left, cmpBy_cons, if_neg (by decide)]
  have h2 : fieldOrd SortField.winRate a b = Ordering.lt :=
    (ordCmp_eq_lt_iff a.winRate b.winRate).mpr h
  rw [h2]
  rfl

/-- Fixture: equal-ROI document with the higher win rate. -/
def docC : LBDoc := ⟨2, "c", 5, 80, 0, 1, 0, 0⟩

/-- Fixture: equal-ROI document with the lower win rate. -/
def docD : LBDoc := ⟨3, "d", 5, 20, 0, 1, 0, 0⟩

/-- C5 counterexample: under the request-default sort (sortColumn defaults
to "roi", direction "desc") the winRate tie-break is ascending, so on equal
ROI the document with the lower win rate receives the better rank —
"higher winRate ranks better" fails on the code. -/
theorem default_sort_winRate_tiebreak_cex :
    docC.roi = docD.roi ∧ docD.winRate < docC.winRate ∧
    mongoRank (buildSortSpec "roi" "desc") [docC, docD] docD
      < mongoRank (buildSortSpec "roi" "desc") [docC, docD] docC := by
  refine ⟨by decide, by decide, by decide⟩

/-- C5 (amended): under the default request parameters the ranking is a
total order with ROI descending as primary key — strictly higher ROI
always ranks strictly better — but the tie-break on equal ROI is win rate
ASCENDING (the `'roi'` switch branch pairs the requested direction with
the inverse direction on the secondary key), followed by the stable
aliasLower/_id keys; the assigned ranks over the full eligible set are
dense integers 1..N with no gaps and no duplicates. -/
theorem default_sort_total_order_dense_ranks (docs : List LBDoc)
    (hids : (docs.map LBDoc.id).Nodup) :
    (∀ a ∈ docs, ∀ b ∈ docs, b.roi < a.roi →
      mongoRank (buildSortSpec "roi" "desc") docs a
        < mongoRank (buildSortSpec "roi" "desc") docs b) ∧
    (∀ a ∈ docs, ∀ b ∈ docs, a.roi = b.roi → a.winRate < b.winRate →
      mongoRank (buildSortSpec "roi" "desc") docs a
        < mongoRank (buildSortSpec "roi" "desc") docs b) ∧
    (∀ a ∈ docs, ∀ b ∈ docs,
      mongoRank (buildSortSpec "roi" "desc") docs a
        = mongoRank (buildSortSpec "roi" "desc") docs b → a = b) ∧
    (∀ k : ℕ, (1 ≤ k ∧ k ≤ docs.length) ↔
      ∃ d ∈ docs, mongoRank (buildSortSpec "roi" "desc") docs d = k) := by
  have hidmem : (SortField.idField, (1:ℤ)) ∈ buildSortSpec "roi" "desc" := by decide
  have hinj : ∀ a ∈ docs, ∀ b ∈ docs,
      mongoRank (buildSortSpec "roi" "desc") docs a
        = mongoRank (buildSortSpec "roi" "desc") docs b → a = b := by
    intro a ha b hb heq
    by_cases hab : a = b
    · exact hab
    · have hne : a.id ≠ b.id := by
        intro hcontra
        exact hab (lbdoc_id_inj docs hids a b ha hb hcontra)
      rcases docBefore_total (buildSortSpec "roi" "desc") hidmem a b hne with h | h
      · have := mongoRank_lt_of_before (buildSortSpec "roi" "desc") docs a b ha h
        omega
      · have := mongoRank_lt_of_before (buildSortSpec "roi" "desc") docs b a hb h
        omega
  refine ⟨?_, ?_, hinj, ?_⟩
  · intro a ha b hb h
    exact mongoRank_lt_of_before (buildSortSpec "roi" "desc") docs a b ha
      (docBefore_default_of_roi h)
  · intro a ha b hb hroi h
    exact mongoRank_lt_of_before (buildSortSpec "roi" "desc") docs a b ha
      (docBefore_default_of_winRate hroi h)
  · intro k
    constructor
    · intro ⟨hk1, hk2⟩
      have hnodup_docs : docs.Nodup := List.Nodup.of_map LBDoc.id hids
      have hnodup : (docs.map (mongoRank (buildSortSpec "roi" "desc") docs)).Nodup :=
        List.Nodup.map_on (fun x hx y hy hxy => hinj x hx y hy hxy) hnodup_docs
      have hsub : (docs.map (mongoRank (buildSortSpec "roi" "desc") docs)).toFinset
          ⊆ Finset.Icc 1 docs.length := by
        intro r hr
        obtain ⟨d, hd, hdr⟩ := List.mem_map.mp (List.mem_toFinset.mp hr)
        rw [Finset.mem_Icc, ← hdr]
        exact ⟨by unfold mongoRank; omega,
          mongoRank_le_length (buildSortSpec "roi" "desc") docs d hd⟩
      have hcard : (docs.map (mongoRank (buildSortSpec "roi" "desc") docs)).toFinset.card
          = docs.length := by
        rw [List.toFinset_card_of_nodup hnodup, List.length_map]
      have hfe : (docs.map (mongoRank (buildSortSpec "roi" "desc") docs)).toFinset
          = Finset.Icc 1 docs.length := by
        refine Finset.eq_of_subset_of_card_le hsub ?_
        rw [hcard, Nat.card_Icc]
        omega
      have hkmem : k ∈ (docs.map (mongoRank (buildSortSpec "roi" "desc") docs)).toFinset := by
        rw [hfe, Finset.mem_Icc]
        exact ⟨hk1, hk2⟩
      obtain ⟨d, hd, hdr⟩ := List.mem_map.mp (List.mem_toFinset.mp hkmem)
      exact ⟨d, hd, hdr⟩
    · intro ⟨d, hd, hdr⟩
      rw [← hdr]
      exact ⟨by unfold mongoRank; omega,
        mongoRank_le_length (buildSortSpec "roi" "desc") docs d hd⟩

/-- Fixture: the higher-ROI document for the C5 witness. -/
def docE : LBDoc := ⟨4, "e", 9, 10, 0, 1, 0, 0⟩

/-- Fixture: the lower-ROI document for the C5 witness. -/
def docF : LBDoc := ⟨5, "f", 3, 10, 0, 1, 0, 0⟩

/-- Witness for C5 (amended) at two concrete documents. -/
theorem default_sort_total_order_dense_ranks_witness :
    mongoRank (buildSortSpec "roi" "desc") [docE, docF] docE
      < mongoRank (buildSortSpec "roi" "desc") [docE, docF] docF :=
  (default_sort_total_order_dense_ranks [docE, docF] (by decide)).1 docE (by decide)
    docF (by decide) (by decide)

/-- The maximal leading run of decimal digits, as a number; `none` when
there is no leading digit (JavaScript parseInt returning NaN). -/
def jsDigits (cs : List Char) : Option ℕ :=
  let ds := cs.takeWhile Char.isDigit
  if ds.isEmpty then none
  else some (ds.foldl (fun n c => n * 10 + (c.toNat - '0'.toNat)) 0)

/-- JavaScript `parseInt(s, 10)`: skip leading whitespace, read an optional
sign and then a maximal run of decimal digits; NaN is modelled as `none`. -/
def jsParseInt (s : String) : Option ℤ :=
  match s.toList.dropWhile Char.isWhitespace with
  | '-' :: rest => (jsDigits rest).map (fun n => -(n : ℤ))
  | '+' :: rest => (jsDigits rest).map (fun n => (n : ℤ))
  | rest => (jsDigits rest).map (fun n => (n : ℤ))

/-- `Math.max(1, parseInt(searchParams.get('page') || '1', 10))` of the
route (line 76): the `|| '1'` default applies to a missing or empty
parameter; `Math.max(1, NaN)` is NaN, so an unparsable parameter stays
NaN (`none`) rather than being clamped. -/
def pageParam (raw : Option String) : Option ℤ :=
  let str := match raw with
    | none => "1"
    | some v => if v = "" then "1" else v
  (jsParseInt str).map (fun n => max 1 n)

/-- `Math.min(100, Math.max(1, parseInt(pageSize || '10', 10)))` (line 77),
with the same NaN propagation. -/
def pageSizeParam (raw : Option String) : Option ℤ :=
  let str := match raw with
    | none => "10"
    | some v => if v = "" then "10" else v
  (jsParseInt str).map (fun n => min 100 (max 1 n))

/-- `Math.ceil(total / pageSize)` of the response payload (line 414). -/
def totalPages (total pageSize : ℕ) : ℤ :=
  Int.ceil ((total : ℚ) / (pageSize : ℚ))

/-- C10 counterexample: an unparsable page parameter is not coerced into
range — `parseInt('abc', 10)` is NaN and `Math.max(1, NaN)` is NaN, so no
clamped page number is produced for the skip stage. -/
theorem pageParam_unparsable_cex : pageParam (some "abc") = none := by decide

/-- C10 (amended): whenever the page/pageSize parameters parse to a number
they are clamped (page at least 1, pageSize within 1..100, missing or
empty parameters defaulting to 1 and 10), but an unparsable value yields
NaN instead of a clamped number; the facet returns at most pageSize rows
starting at offset (page-1)*pageSize of the ranked rows; and totalPages is
the ceiling of total/pageSize. -/
theorem pagination_clamping :
    (∀ raw p, pageParam raw = some p → 1 ≤ p) ∧
    (∀ raw n, pageSizeParam raw = some n → 1 ≤ n ∧ n ≤ 100) ∧
    pageParam none = some 1 ∧ pageSizeParam none = some 10 ∧
    (∀ (docs : List LBDoc) (search : Option (LBDoc → Bool))
      (sc sd : String) (page ps : ℕ),
      (leaderboardData docs search sc sd page ps).length ≤ ps ∧
      ∀ k : ℕ, (leaderboardData docs search sc sd page ps)[k]?
        = if k < ps then (rankedRows docs search sc sd)[(page - 1) * ps + k]? else none) ∧
    (∀ total ps : ℕ, 0 < ps → totalPages total ps = ((total + ps - 1) / ps : ℕ)) := by
  refine ⟨?_, ?_, by decide, by decide, ?_, ?_⟩
  · intro raw p h
    simp only [pageParam] at h
    obtain ⟨m, _, hmp⟩ := Option.map_eq_some'.mp h
    omega
  · intro raw n h
    simp only [pageSizeParam] at h
    obtain ⟨m, _, hmp⟩ := Option.map_eq_some'.mp h
    omega
  · intro docs search sc sd page ps
    constructor
    · simp only [leaderboardData, paginate]
      exact List.length_take_le ps ((rankedRows docs search sc sd).drop ((page - 1) * ps))
    · intro k
      simp [leaderboardData, paginate, List.getElem?_take, List.getElem?_drop]
  · intro total ps hps
    have hdm := Nat.div_add_mod (total + ps - 1) ps
    have hmlt : (total + ps - 1) % ps < ps := Nat.mod_lt _ hps
    have hdm1 : ps * ((total + ps - 1) / ps) + (total + ps - 1) % ps + 1 = total + ps := by
      rw [hdm]
      exact Nat.sub_add_cancel (by omega)
    have hq : (ps : ℚ) * ((total + ps - 1) / ps : ℕ) + ((total + ps - 1) % ps : ℕ) + 1
        = (total : ℚ) + (ps : ℚ) := by
      exact_mod_cast hdm1
    have hmq : (((total + ps - 1) % ps : ℕ) : ℚ) < (ps : ℚ) := by exact_mod_cast hmlt
    have hmq1 : (((total + ps - 1) % ps : ℕ) : ℚ) + 1 ≤ (ps : ℚ) := by
      exact_mod_cast Nat.succ_le_of_lt hmlt
    have hm0 : (0 : ℚ) ≤ (((total + ps - 1) % ps : ℕ) : ℚ) := Nat.cast_nonneg _
    have hps' : (0 : ℚ) < (ps : ℚ) := by exact_mod_cast hps
    unfold totalPages
    rw [Int.ceil_eq_iff]
    constructor
    · rw [lt_div_iff₀ hps']
      simp only [Int.cast_natCast]
      nlinarith
    · rw [div_le_iff₀ hps']
      simp only [Int.cast_natCast]
      nlinarith

/-- Witness for C10 (amended) at concrete parameters. -/
theorem pagination_clamping_witness :
    (1 : ℤ) ≤ 1 ∧ ((1 : ℤ) ≤ 100 ∧ (100 : ℤ) ≤ 100) ∧
    (leaderboardData [docA, docB] none "roi" "desc" 1 2).length ≤ 2 ∧
    totalPages 7 2 = ((7 + 2 - 1) / 2 : ℕ) := by
  refine ⟨?_, ?_, ?_, ?_⟩
  · exact pagination_clamping.1 (some "-7") 1 (by decide)
  · exact pagination_clamping.2.1 (some "1000") 100 (by decide)
  · exact (pagination_clamping.2.2.2.2.1 [docA, docB] none "roi" "desc" 1 2).1
  · exact pagination_clamping.2.2.2.2.2 7 2 (by decide)

end EdgeIQ
